import Mathlib

/-!
Verification development for the AdGuardDNS repository.

The Go source is shallowly embedded: DNS messages, EDNS options and IP
addresses become inductive structures, byte slices become lists of natural
numbers below 256, machine integers become `Nat` with explicit widths, and
fallible Go functions return `Except`.  Each definition mirrors the function
of the same (or closely related) name in the sources; definitions for code
that is only present through its tests are marked `Modelled from the spec:`
in their doc comments.
-/

/-! ## EDNS Client Subnet (internal/dnsmsg) -/

/-- Model of `dns.EDNS0_SUBNET`: the address family number, the source
netmask, the source scope, and the address as a big-endian byte slice. -/
structure EDNS0SUBNET where
  family : Nat
  sourceNetmask : Nat
  sourceScope : Nat
  address : List Nat
deriving DecidableEq

/-- The bit width of an address of the given family number (1 is IPv4,
2 is IPv6), mirroring `netip.Addr.BitLen` after `agdnet.IPToAddr`. -/
def widthOfFam (fam : Nat) : Nat :=
  if fam = 1 then 32 else 128

/-- Big-endian value of a byte slice. -/
def beVal (bs : List Nat) : Nat :=
  bs.foldl (fun acc b => acc * 256 + b) 0

/-- Modelled from the spec: `agdnet.IPToAddr` is not among the sources (only
its caller `ecsData` is).  It converts a byte-slice IP address of the given
family into a `netip.Addr`, failing when the slice does not represent an
address of that family; here the address becomes its numeric value and the
byte length must match the family. -/
def ipToAddr (ip : List Nat) (fam : Nat) : Except String Nat :=
  if fam = 1 then
    if ip.length = 4 then .ok (beVal ip) else .error "bad ecs ip addr"
  else
    if ip.length = 16 then .ok (beVal ip) else .error "bad ecs ip addr"

/-- The errors `ecsData` can produce, one constructor per `fmt.Errorf` in
the source. -/
inductive ECSErr where
  | unsupportedFam (fam : Nat)
  | badIPAddr
  | badSrcNetmask (n : Nat) (fam : Nat)
  | bitsBeyond (n : Nat)
deriving DecidableEq

/-- Model of `netip.Prefix`: an address family, the numeric address value,
and the mask bit count. -/
structure NPfx where
  fam : Nat
  val : Nat
  bits : Nat
deriving DecidableEq

/-- The zero value `netip.Prefix{}`. -/
def zeroNPfx : NPfx := ⟨0, 0, 0⟩

/-- `maskVal w p v` keeps the top `p` bits of the `w`-bit value `v` and
zeroes the rest, mirroring `netip.Prefix.Masked` on the address value. -/
def maskVal (w p v : Nat) : Nat :=
  (v >>> (w - p)) <<< (w - p)

/-- Embedding of `ecsData` (internal/dnsmsg): returns the subnet and scope
from an EDNS Client Subnet option, checking the address family, the address
conversion, the netmask validity, and that the address has no bits set
beyond the prefix. -/
def ecsData (esn : EDNS0SUBNET) : Except ECSErr (NPfx × Nat) :=
  if esn.family ≠ 1 ∧ esn.family ≠ 2 then
    .error (.unsupportedFam esn.family)
  else
    match ipToAddr esn.address esn.family with
    | .error _ => .error .badIPAddr
    | .ok v =>
      if widthOfFam esn.family < esn.sourceNetmask then
        .error (.badSrcNetmask esn.sourceNetmask esn.family)
      else if maskVal (widthOfFam esn.family) esn.sourceNetmask v ≠ v then
        .error (.bitsBeyond esn.sourceNetmask)
      else
        .ok (⟨esn.family, v, esn.sourceNetmask⟩, esn.sourceScope)

/-- One EDNS option within the OPT pseudosection: either a client-subnet
option or some other option. -/
inductive EDNSOpt where
  | subnet (esn : EDNS0SUBNET)
  | other (code : Nat)
deriving DecidableEq

/-- The part of a DNS message `ECSFromMsg` looks at: whether an OPT
pseudosection is present, and its options. -/
structure MsgEdns where
  hasOpt : Bool
  options : List EDNSOpt
deriving DecidableEq

/-- The loop body of `ECSFromMsg` over the option list. -/
def ecsLoop : List EDNSOpt → Except ECSErr (NPfx × Nat)
  | [] => .ok (zeroNPfx, 0)
  | .other _ :: rest => ecsLoop rest
  | .subnet esn :: rest =>
    match ecsData esn with
    | .error e => .error e
    | .ok (pr, scope) => if pr ≠ zeroNPfx then .ok (pr, scope) else ecsLoop rest

/-- Embedding of `ECSFromMsg` (internal/dnsmsg): returns the EDNS Client
Subnet information of the message, the zero subnet when there is none, and
an error when the option is malformed.  Errors are wrapped in `BadECSError`
in the source; the wrapping preserves the underlying error and is omitted. -/
def ECSFromMsg (msg : MsgEdns) : Except ECSErr (NPfx × Nat) :=
  if msg.hasOpt then ecsLoop msg.options else .ok (zeroNPfx, 0)

/-! ## Message cloning (internal/dnsmsg) -/

/-- A single resource record; its contents are irrelevant for cloning. -/
structure RRec where
  rname : String
  rrtype : Nat
  ttl : Nat
deriving DecidableEq

/-- The sections of a `dns.Msg` relevant to `Clone`: each RR slice is
either absent (`none`, a nil Go slice) or present with its records. -/
structure Msg where
  ident : Nat
  answer : Option (List RRec)
  ns : Option (List RRec)
  extra : Option (List RRec)
deriving DecidableEq

/-- Model of `dns.Msg.Copy` from the vendored miekg/dns library, which
`Clone` wraps: a deep copy whose RR slices are always allocated, so the
nil-versus-empty distinction of the original is lost
(github.com/miekg/dns/issues/1351). -/
def msgCopy (m : Msg) : Msg :=
  ⟨m.ident, some (m.answer.getD []), some (m.ns.getD []), some (m.extra.getD [])⟩

/-- Embedding of `Clone` (internal/dnsmsg): returns nil for a nil message,
otherwise copies the message and restores the nilness of each RR slice. -/
def Clone : Option Msg → Option Msg
  | none => none
  | some m =>
    let c := msgCopy m
    some ⟨c.ident,
      if m.answer = none then none else c.answer,
      if m.ns = none then none else c.ns,
      if m.extra = none then none else c.extra⟩

/-! ## Device-id grammar and extraction (internal/agd, internal/dnssvc)

The extraction functions exist in the repository only through their tests
(`deviceid_internal_test.go`); they are modelled from the spec and checked
against the expected values recorded in those tests. -/

/-- A single quote character, for rendering error messages. -/
def squo : String := String.singleton (Char.ofNat 39)

/-- A double quote character, for rendering error messages. -/
def dquo : String := String.singleton (Char.ofNat 34)

/-- Whether a character is allowed inside a device id: an ASCII letter, an
ASCII digit, or a hyphen-minus. -/
def isLabelRune (c : Char) : Bool :=
  (97 ≤ c.toNat && c.toNat ≤ 122) ||
    (65 ≤ c.toNat && c.toNat ≤ 90) ||
    (48 ≤ c.toNat && c.toNat ≤ 57) ||
    c.toNat = 45

/-- The ways a candidate device id can be rejected. -/
inductive DevIDErr where
  | tooLong (n : Nat)
  | badRune (c : Char)
deriving DecidableEq

/-- Renders a device-id rejection the way the repository formats it. -/
def devIDErrMsg : DevIDErr → String
  | .tooLong n => "too long: got " ++ toString n ++ " bytes, max 8"
  | .badRune c => "bad domain name label rune " ++ squo ++ String.singleton c ++ squo

/-- Modelled from the spec: `agd.NewDeviceID` is not among the sources (only
its tests are).  A device id is at most 8 bytes and each rune must be an
ASCII letter, digit, or hyphen; a too-long candidate is rejected first, as
the test for a 72-byte candidate of valid runes shows. -/
def newDeviceID (s : String) : Except DevIDErr String :=
  if 8 < s.utf8ByteSize then .error (.tooLong s.utf8ByteSize)
  else
    match s.data.find? (fun c => ! isLabelRune c) with
    | some c => .error (.badRune c)
    | none => .ok s

/-- `immSubLabel sni suf` returns the label `l` when the domain `sni`
(written as its list of labels) is exactly `l` followed by the labels of
`suf`, with `l` nonempty — that is, when `sni` is an immediate subdomain of
`suf`. -/
def immSubLabel (sni suf : List String) : Option String :=
  match sni with
  | [] => none
  | l :: rest => if rest = suf ∧ l ≠ "" then some l else none

/-- Scans the configured wildcards in order; a wildcard contributes only
when it has the form `*.<suffix>` and the client server name is an
immediate subdomain of `<suffix>`. -/
def findWildcardLabel (sni : List String) : List (List String) → Option String
  | [] => none
  | w :: rest =>
    match w with
    | "*" :: suf =>
      match immSubLabel sni suf with
      | some l => some l
      | none => findWildcardLabel sni rest
    | _ => findWildcardLabel sni rest

/-- Modelled from the spec: `deviceIDFromClientServerName`
(internal/dnssvc) is not among the sources (only its tests are).  Domains
are written as lists of labels; an empty server name yields no device id,
a server name that is an immediate subdomain of some wildcard suffix yields
the leading label, validated by the device-id grammar; otherwise there is
no device id and no error. -/
def deviceIDFromSrvName (sni : List String) (wildcards : List (List String)) :
    Except DevIDErr String :=
  if sni = [] then .ok ""
  else
    match findWildcardLabel sni wildcards with
    | none => .ok ""
    | some l => newDeviceID l

/-- The ways a DoH URL path can fail device-id extraction. -/
inductive PathErr where
  | badPath (p : String)
  | extraParts (p : String)
  | badDeviceID (idStr : String) (e : DevIDErr)
deriving DecidableEq

/-- Renders a DoH path rejection the way the repository formats it. -/
def pathErrMsg : PathErr → String
  | .badPath p => "bad path " ++ dquo ++ p ++ dquo
  | .extraParts p => "bad path " ++ dquo ++ p ++ dquo ++ ": extra parts"
  | .badDeviceID idStr e => "bad device id " ++ dquo ++ idStr ++ dquo ++ ": " ++ devIDErrMsg e

/-- The path separator. -/
def sepSlash : Char := Char.ofNat 47

/-- Splits a character list at every occurrence of the separator; the
result always has one more element than the number of separators. -/
def splitAll (sep : Char) : List Char → List (List Char)
  | [] => [[]]
  | c :: rest =>
    if c = sep then [] :: splitAll sep rest
    else
      match splitAll sep rest with
      | [] => [[c]]
      | p :: ps => (c :: p) :: ps

/-- The nonempty slash-separated segments of a URL path. -/
def pathSegs (p : String) : List String :=
  ((splitAll sepSlash p.data).map String.mk).filter (fun s => s ≠ "")

/-- Modelled from the spec: the DoH URL-path device-id extraction
(internal/dnssvc) is not among the sources (only its tests are).  The path
must be `/dns-query`, optionally followed by one device-id segment and an
optional trailing slash; extra segments and malformed ids are rejected. -/
def deviceIDFromDoHPath (p : String) : Except PathErr String :=
  match pathSegs p with
  | ["dns-query"] => .ok ""
  | ["dns-query", idStr] =>
    match newDeviceID idStr with
    | .ok s => .ok s
    | .error e => .error (.badDeviceID idStr e)
  | "dns-query" :: _ :: _ :: _ => .error (.extraParts p)
  | _ => .error (.badPath p)

/-! ## DoH JSON codec (internal/dnsserver)

`DNSMsgToJSONMsg` exists in the repository only through its test
(`serverhttps_test.go`); it is modelled from the spec and checked against
the exact expected values of that test. -/

/-- Renders a 4-byte IPv4 address in dotted-quad form. -/
def ip4Str (bs : List Nat) : String :=
  String.intercalate "." (bs.map (fun b => toString b))

/-- One hexadecimal group of an IPv6 address, lowercase, no leading
zeroes. -/
def hexStr (n : Nat) : String :=
  String.mk (Nat.toDigits 16 n)

/-- The eight 16-bit groups of a 16-byte IPv6 address. -/
def groups16 : List Nat → List Nat
  | hi :: lo :: rest => (hi * 256 + lo) :: groups16 rest
  | _ => []

/-- The leftmost longest run of zero groups, when it has length at least
two: the pair of its start index and its length.  This mirrors the zero
compression of Go's IPv6 formatting (RFC 5952). -/
def bestZeroRun (gs : List Nat) : Option (Nat × Nat) :=
  let cands := (List.range gs.length).map
    (fun i => (i, ((gs.drop i).takeWhile (fun g => g = 0)).length))
  let best := cands.foldl (fun acc c => if acc.2 < c.2 then c else acc) (0, 0)
  if 2 ≤ best.2 then some best else none

/-- Renders a 16-byte IPv6 address in its canonical compressed form. -/
def ip6Str (bs : List Nat) : String :=
  let gs := groups16 bs
  match bestZeroRun gs with
  | none => String.intercalate ":" (gs.map hexStr)
  | some (i, l) =>
    String.intercalate ":" ((gs.take i).map hexStr) ++ "::" ++
      String.intercalate ":" ((gs.drop (i + l)).map hexStr)

/-- The base64 alphabet character for a 6-bit value. -/
def b64Char (n : Nat) : Char :=
  if n < 26 then Char.ofNat (65 + n)
  else if n < 52 then Char.ofNat (97 + (n - 26))
  else if n < 62 then Char.ofNat (48 + (n - 52))
  else if n = 62 then Char.ofNat 43
  else Char.ofNat 47

/-- Standard base64 encoding of a byte list, with padding. -/
def b64Encode : List Nat → String
  | [] => ""
  | [a] =>
    String.mk [b64Char (a / 4), b64Char (a % 4 * 16)] ++ "=="
  | [a, b] =>
    String.mk [b64Char (a / 4), b64Char (a % 4 * 16 + b / 16),
      b64Char (b % 16 * 4)] ++ "="
  | a :: b :: c :: rest =>
    String.mk [b64Char (a / 4), b64Char (a % 4 * 16 + b / 16),
      b64Char (b % 16 * 4 + c / 64), b64Char (c % 64)] ++ b64Encode rest

/-- An SVCB/HTTPS key-value parameter, restricted to the keys the spec
names. -/
inductive SVCBKV where
  | alpn (vals : List String)
  | ech (bytes : List Nat)
  | ipv4hint (ips : List (List Nat))
  | ipv6hint (ips : List (List Nat))
deriving DecidableEq

/-- The RDATA of a resource record, for the record types the JSON codec
test exercises. -/
inductive RRData where
  | a (ip : List Nat)
  | aaaa (ip : List Nat)
  | txt (strs : List String)
  | cname (target : String)
  | https (prio : Nat) (target : String) (kvs : List SVCBKV)
deriving DecidableEq

/-- A full resource record: header fields plus RDATA. -/
structure RRFull where
  rname : String
  rrtype : Nat
  rrclass : Nat
  ttl : Nat
  rdata : RRData
deriving DecidableEq

/-- Renders one SVCB key-value parameter in presentation form. -/
def svcbKVStr : SVCBKV → String
  | .alpn vs => "alpn=" ++ dquo ++ String.intercalate "," vs ++ dquo
  | .ech bs => "ech=" ++ dquo ++ b64Encode bs ++ dquo
  | .ipv4hint ips => "ipv4hint=" ++ dquo ++ String.intercalate "," (ips.map ip4Str) ++ dquo
  | .ipv6hint ips => "ipv6hint=" ++ dquo ++ String.intercalate "," (ips.map ip6Str) ++ dquo

/-- Canonical textual form of a record's RDATA: A/AAAA as the literal IP,
CNAME as its target, TXT as space-separated quoted strings, HTTPS/SVCB in
presentation form with priority, target and parameters. -/
def rdataStr : RRData → String
  | .a ip => ip4Str ip
  | .aaaa ip => ip6Str ip
  | .txt strs => String.intercalate " " (strs.map (fun s => dquo ++ s ++ dquo))
  | .cname t => t
  | .https prio target kvs =>
    toString prio ++ " " ++ target ++
      String.join (kvs.map (fun kv => " " ++ svcbKVStr kv))

/-- One question of the JSON message: name and type. -/
structure JSONQuestion where
  qname : String
  qtype : Nat
deriving DecidableEq

/-- One answer of the JSON message: name, type, class, TTL and the textual
RDATA. -/
structure JSONAnswer where
  aname : String
  atype : Nat
  aclass : Nat
  ttl : Nat
  adata : String
deriving DecidableEq

/-- The DoH JSON message shape: status, flags, and the question, answer,
authority and extra sections. -/
structure JSONMsgT where
  status : Nat
  truncated : Bool
  rd : Bool
  ra : Bool
  ad : Bool
  cd : Bool
  question : List JSONQuestion
  answer : List JSONAnswer
  authority : List JSONAnswer
  extra : List JSONAnswer
deriving DecidableEq

/-- The parts of a `dns.Msg` the JSON codec consumes: header flags, rcode,
questions, and the three RR sections. -/
structure MsgFull where
  rcode : Nat
  truncated : Bool
  rd : Bool
  ra : Bool
  ad : Bool
  cd : Bool
  question : List (String × Nat)
  answer : List RRFull
  ns : List RRFull
  extra : List RRFull

/-- Maps a resource record to its JSON answer: header fields are copied and
the RDATA is rendered textually. -/
def toJSONAnswer (rr : RRFull) : JSONAnswer :=
  ⟨rr.rname, rr.rrtype, rr.rrclass, rr.ttl, rdataStr rr.rdata⟩

/-- Modelled from the spec: `DNSMsgToJSONMsg` (internal/dnsserver) is not
among the sources (only its test is).  It maps the message header to the
JSON status and flags and renders every record of the three RR sections in
canonical textual form. -/
def DNSMsgToJSONMsg (m : MsgFull) : JSONMsgT :=
  ⟨m.rcode, m.truncated, m.rd, m.ra, m.ad, m.cd,
    m.question.map (fun q => ⟨q.1, q.2⟩),
    m.answer.map toJSONAnswer,
    m.ns.map toJSONAnswer,
    m.extra.map toJSONAnswer⟩

/-! ## Linked-IP reverse proxy (internal/websvc) -/

/-- Splits off everything up to the first separator: the part before it and,
when a separator occurs, the remainder after it. -/
def splitFirst (sep : Char) : List Char → List Char × Option (List Char)
  | [] => ([], none)
  | c :: rest =>
    if c = sep then ([], some rest)
    else (c :: (splitFirst sep rest).1, (splitFirst sep rest).2)

/-- Go's `strings.SplitN` with a positive count: at most `n` parts, the
last part keeping the unsplit remainder. -/
def goSplitN (sep : Char) : Nat → List Char → List (List Char)
  | 0, _ => []
  | 1, s => [s]
  | n + 2, s =>
    match splitFirst sep s with
    | (pre, none) => [pre]
    | (pre, some rest) => pre :: goSplitN sep (n + 1) rest

/-- Go's `strings.TrimPrefix` for the one-character string `"/"`: removes a
single leading slash when present. -/
def trimLeadSlash : List Char → List Char
  | [] => []
  | c :: rest => if c = sepSlash then rest else c :: rest

/-- Embedding of `shouldProxyGet` (internal/websvc): a GET request is
proxied when the first part is `linkip` and there are three parts, or four
parts with the fourth being `status`. -/
def shouldProxyGet (parts : List (List Char)) : Bool :=
  decide (parts.headD [] = "linkip".data) &&
    (decide (parts.length = 3) ||
      (decide (parts.length = 4) && decide (parts.getD 3 [] = "status".data)))

/-- Embedding of `shouldProxyPost` (internal/websvc): a POST request is
proxied when the first part is `ddns` with four parts, or `linkip` with
three parts. -/
def shouldProxyPost (parts : List (List Char)) : Bool :=
  (decide (parts.headD [] = "ddns".data) && decide (parts.length = 4)) ||
    (decide (parts.headD [] = "linkip".data) && decide (parts.length = 3))

/-- Embedding of `shouldProxy` (internal/websvc): trims one leading slash,
splits into at most five parts, requires three or four parts, and then
dispatches on the method. -/
def shouldProxy (method urlPath : String) : Bool :=
  let parts := goSplitN sepSlash 5 (trimLeadSlash urlPath.data)
  if parts.length < 3 ∨ 4 < parts.length then false
  else if method = "GET" then shouldProxyGet parts
  else if method = "POST" then shouldProxyPost parts
  else false

/-- What the linked-IP handler does with a request. -/
inductive WebAction where
  | proxied
  | robots
  | notFound
deriving DecidableEq

/-- Embedding of the dispatch of `linkedIPProxy.ServeHTTP`
(internal/websvc): requests satisfying `shouldProxy` go to the reverse
proxy, `/robots.txt` is answered directly, and everything else is a 404. -/
def linkedIPServeHTTP (method urlPath : String) : WebAction :=
  if shouldProxy method urlPath then .proxied
  else if urlPath = "/robots.txt" then .robots
  else .notFound

/-! ## Strict environment booleans (internal/cmd) -/

/-- The error message `strictBool.UnmarshalText` formats with `%q`. -/
def strictBoolErrMsg (b : List Char) : String :=
  "invalid value " ++ dquo ++ String.mk b ++ dquo ++ ", supported: " ++
    dquo ++ "0" ++ dquo ++ ", " ++ dquo ++ "1" ++ dquo

/-- Embedding of `strictBool.UnmarshalText` (internal/cmd): given the
current value and the input bytes, returns the new value and the error, if
any.  Only the one-byte inputs `0` and `1` are accepted; anything else
leaves the value unchanged and yields an error. -/
def strictBoolUnmarshalText (sb : Bool) (b : List Char) : Bool × Option String :=
  match b with
  | [c] =>
    if c = '0' then (false, none)
    else if c = '1' then (true, none)
    else (sb, some (strictBoolErrMsg b))
  | _ => (sb, some (strictBoolErrMsg b))

deriving instance DecidableEq for Except

/-! ## Theorems -/

/-- C1: for every DNS message carrying an EDNS Client Subnet option, if the
supplied address has any bit set beyond the `source_netmask` prefix, then
ECS extraction (`ecsData` / `ECSFromMsg`) returns a malformed-ECS error and
no subnet; if the masked address equals the supplied address, that check
passes and the subnet is returned. -/
theorem ecs_masked_address_check (msg : MsgEdns) (esn : EDNS0SUBNET) (v : Nat)
    (hopt : msg.hasOpt = true) (hone : msg.options = [.subnet esn])
    (hfam : esn.family = 1 ∨ esn.family = 2)
    (hip : ipToAddr esn.address esn.family = .ok v)
    (hnm : esn.sourceNetmask ≤ widthOfFam esn.family) :
    (maskVal (widthOfFam esn.family) esn.sourceNetmask v ≠ v →
      ecsData esn = .error (.bitsBeyond esn.sourceNetmask) ∧
      ECSFromMsg msg = .error (.bitsBeyond esn.sourceNetmask)) ∧
    (maskVal (widthOfFam esn.family) esn.sourceNetmask v = v →
      ecsData esn = .ok (⟨esn.family, v, esn.sourceNetmask⟩, esn.sourceScope) ∧
      ECSFromMsg msg = .ok (⟨esn.family, v, esn.sourceNetmask⟩, esn.sourceScope)) := by
  have hfam2 : ¬ (esn.family ≠ 1 ∧ esn.family ≠ 2) := by
    rcases hfam with h | h <;> simp [h]
  have hnm2 : ¬ (widthOfFam esn.family < esn.sourceNetmask) := by omega
  constructor
  · intro hmask
    have hd : ecsData esn = .error (.bitsBeyond esn.sourceNetmask) := by
      unfold ecsData
      rw [if_neg hfam2, hip]
      simp only [if_neg hnm2, if_pos hmask]
    refine ⟨hd, ?_⟩
    unfold ECSFromMsg
    rw [hopt, hone]
    simp [ecsLoop, hd]
  · intro hmask
    have hd : ecsData esn = .ok (⟨esn.family, v, esn.sourceNetmask⟩, esn.sourceScope) := by
      unfold ecsData
      rw [if_neg hfam2, hip]
      simp only [if_neg hnm2]
      rw [if_neg (by simp [hmask])]
    refine ⟨hd, ?_⟩
    unfold ECSFromMsg
    rw [hopt, hone]
    have hz : (⟨esn.family, v, esn.sourceNetmask⟩ : NPfx) ≠ zeroNPfx := by
      intro h
      rcases hfam with hf | hf <;> (rw [hf] at h; simp [zeroNPfx] at h)
    simp [ecsLoop, hd, hz]

/-- Witness for C1: a /16 IPv4 option whose address `1.2.3.4` has bits
beyond the prefix is rejected; the masked address `1.2.0.0` is accepted. -/
theorem ecs_masked_address_check_w :
    ECSFromMsg ⟨true, [.subnet ⟨1, 16, 0, [1, 2, 3, 4]⟩]⟩ = .error (.bitsBeyond 16) ∧
    ECSFromMsg ⟨true, [.subnet ⟨1, 16, 0, [1, 2, 0, 0]⟩]⟩ = .ok (⟨1, 16908288, 16⟩, 0) :=
  ⟨((ecs_masked_address_check ⟨true, [.subnet ⟨1, 16, 0, [1, 2, 3, 4]⟩]⟩
      ⟨1, 16, 0, [1, 2, 3, 4]⟩ 16909060 rfl rfl (Or.inl rfl) rfl (by decide)).1
      (by decide)).2,
   ((ecs_masked_address_check ⟨true, [.subnet ⟨1, 16, 0, [1, 2, 0, 0]⟩]⟩
      ⟨1, 16, 0, [1, 2, 0, 0]⟩ 16908288 rfl rfl (Or.inl rfl) rfl (by decide)).2
      (by decide)).2⟩

/-- C6: an ECS option whose address family is neither 1 (IPv4) nor 2 (IPv6)
is rejected with the unsupported-family error; with family 1 or 2, whatever
error `ecsData` may return is never the unsupported-family one. -/
theorem ecs_family_check (esn : EDNS0SUBNET) :
    (esn.family ≠ 1 ∧ esn.family ≠ 2 →
      ecsData esn = .error (.unsupportedFam esn.family)) ∧
    (esn.family = 1 ∨ esn.family = 2 →
      ∀ e, ecsData esn = .error e → ∀ f, e ≠ .unsupportedFam f) := by
  constructor
  · intro h
    unfold ecsData
    rw [if_pos h]
  · intro hfam e he f
    have hfam2 : ¬ (esn.family ≠ 1 ∧ esn.family ≠ 2) := by
      rcases hfam with h | h <;> simp [h]
    unfold ecsData at he
    rw [if_neg hfam2] at he
    cases hip : ipToAddr esn.address esn.family with
    | error s =>
      rw [hip] at he
      simp only [] at he
      cases he
      simp
    | ok v =>
      rw [hip] at he
      simp only [] at he
      split at he
      · cases he
        simp
      · split at he
        · cases he
          simp
        · cases he

/-- Witness for C6: family 3 is rejected as unsupported; with family 1 and
an empty address slice the error is the bad-address one, not the
unsupported-family one. -/
theorem ecs_family_check_w :
    ecsData ⟨3, 16, 0, [1, 2, 0, 0]⟩ = .error (.unsupportedFam 3) ∧
    ECSErr.badIPAddr ≠ ECSErr.unsupportedFam 3 :=
  ⟨(ecs_family_check ⟨3, 16, 0, [1, 2, 0, 0]⟩).1 (by decide),
   (ecs_family_check ⟨1, 0, 0, []⟩).2 (Or.inl rfl) ECSErr.badIPAddr rfl 3⟩

/-- C2: cloning a message preserves, for each of the three RR sections
independently, whether the section is absent (nil) or present: the section
of the clone is nil exactly when the section of the original is. -/
theorem clone_preserves_section_nilness (m : Msg) :
    ∃ c, Clone (some m) = some c ∧
      (c.answer = none ↔ m.answer = none) ∧
      (c.ns = none ↔ m.ns = none) ∧
      (c.extra = none ↔ m.extra = none) := by
  rcases m with ⟨i, a, n, e⟩
  refine ⟨_, rfl, ?_, ?_, ?_⟩ <;>
    cases a <;> cases n <;> cases e <;> simp [Clone, msgCopy]

/-- C10: cloning the nil message returns nil rather than an empty
message. -/
theorem clone_nil_is_nil : Clone none = none := rfl

/-- C3: a candidate device id of at most 8 bytes whose every rune is an
ASCII letter, digit or hyphen is accepted; a candidate of nine or more
bytes is rejected with the message `too long: got <N> bytes, max 8` where
`<N>` is its byte length; a candidate with any other rune is rejected with
a bad-domain-name-label-rune error. -/
theorem deviceID_grammar (s : String) :
    (s.utf8ByteSize ≤ 8 ∧ (∀ c ∈ s.data, isLabelRune c = true) →
      newDeviceID s = .ok s) ∧
    (9 ≤ s.utf8ByteSize →
      newDeviceID s = .error (.tooLong s.utf8ByteSize) ∧
      devIDErrMsg (.tooLong s.utf8ByteSize) =
        "too long: got " ++ toString s.utf8ByteSize ++ " bytes, max 8") ∧
    (s.utf8ByteSize ≤ 8 → (∃ c ∈ s.data, isLabelRune c = false) →
      ∃ c, newDeviceID s = .error (.badRune c) ∧ isLabelRune c = false) := by
  refine ⟨?_, ?_, ?_⟩
  · rintro ⟨h8, hall⟩
    unfold newDeviceID
    rw [if_neg (by omega)]
    have hnone : s.data.find? (fun c => ! isLabelRune c) = none := by
      rw [List.find?_eq_none]
      intro x hx
      simp [hall x hx]
    rw [hnone]
  · intro h9
    refine ⟨?_, rfl⟩
    unfold newDeviceID
    rw [if_pos (by omega)]
  · rintro h8 ⟨c0, hc0mem, hc0bad⟩
    have hsome : (s.data.find? (fun c => ! isLabelRune c)).isSome := by
      rw [List.find?_isSome]
      exact ⟨c0, hc0mem, by simp [hc0bad]⟩
    obtain ⟨c, hc⟩ := Option.isSome_iff_exists.mp hsome
    refine ⟨c, ?_, ?_⟩
    · unfold newDeviceID
      rw [if_neg (by omega), hc]
    · have := List.find?_some hc
      simpa using this

/-- Witness for C3: an 8-byte id is accepted, a 9-byte id is rejected as
too long with the exact message, and an id with a `!` rune is rejected with
a bad-rune error. -/
theorem deviceID_grammar_w :
    newDeviceID "abcd0123" = .ok "abcd0123" ∧
    newDeviceID "abcdefghi" = .error (.tooLong ("abcdefghi".utf8ByteSize)) ∧
    devIDErrMsg (.tooLong ("abcdefghi".utf8ByteSize)) = "too long: got 9 bytes, max 8" ∧
    ∃ c, newDeviceID "a!b" = .error (.badRune c) ∧ isLabelRune c = false := by
  refine ⟨?_, ?_, ?_, ?_⟩
  · exact (deviceID_grammar "abcd0123").1 ⟨by decide, by decide⟩
  · exact ((deviceID_grammar "abcdefghi").2.1 (by decide)).1
  · exact Eq.trans ((deviceID_grammar "abcdefghi").2.1 (by decide)).2 (by decide)
  · exact (deviceID_grammar "a!b").2.2 (by decide) ⟨Char.ofNat 33, by decide, by decide⟩

/-- C4: with wildcards of the form `*.<suffix>`, an SNI with exactly one
label before a suffix yields that label as the device id; an SNI equal to
the bare suffix yields no device id and no error; a deeper subdomain yields
no device id unless a more specific wildcard matches, in which case the
label before the more specific suffix is the device id. -/
theorem sni_wildcard_deviceID (suf : List String) (lbl : String) :
    (lbl ≠ "" → newDeviceID lbl = .ok lbl →
      deviceIDFromSrvName (lbl :: suf) [("*" :: suf)] = .ok lbl) ∧
    deviceIDFromSrvName suf [("*" :: suf)] = .ok "" ∧
    (∀ l2 : String,
      deviceIDFromSrvName (lbl :: l2 :: suf) [("*" :: suf)] = .ok "") ∧
    (∀ sub : String, lbl ≠ "" → newDeviceID lbl = .ok lbl →
      deviceIDFromSrvName (lbl :: sub :: suf)
        [("*" :: suf), ("*" :: sub :: suf)] = .ok lbl) := by
  refine ⟨?_, ?_, ?_, ?_⟩
  · intro hne hok
    simp [deviceIDFromSrvName, findWildcardLabel, immSubLabel, hne, hok]
  · cases suf with
    | nil => rfl
    | cons s rest =>
      have hcne : rest ≠ s :: rest := fun h => (List.cons_ne_self s rest) h.symm
      simp [deviceIDFromSrvName, findWildcardLabel, immSubLabel, hcne]
  · intro l2
    have hcne : l2 :: suf ≠ suf := List.cons_ne_self l2 suf
    simp [deviceIDFromSrvName, findWildcardLabel, immSubLabel, hcne]
  · intro sub hne hok
    have hcne : sub :: suf ≠ suf := List.cons_ne_self sub suf
    simp [deviceIDFromSrvName, findWildcardLabel, immSubLabel, hcne, hne, hok]

/-- Witness for C4, on the wildcard set of the tests: `dev.dns.example.com`
yields `dev`; the bare `dns.example.com` and the deep
`abc.def.dns.example.com` yield none; `dev.sub.dns.example.com` yields
`dev` through the more specific wildcard `*.sub.dns.example.com`. -/
theorem sni_wildcard_deviceID_w :
    deviceIDFromSrvName ["dev", "dns", "example", "com"]
      [["*", "dns", "example", "com"]] = .ok "dev" ∧
    deviceIDFromSrvName ["dns", "example", "com"]
      [["*", "dns", "example", "com"]] = .ok "" ∧
    deviceIDFromSrvName ["abc", "def", "dns", "example", "com"]
      [["*", "dns", "example", "com"]] = .ok "" ∧
    deviceIDFromSrvName ["dev", "sub", "dns", "example", "com"]
      [["*", "dns", "example", "com"], ["*", "sub", "dns", "example", "com"]] =
      .ok "dev" :=
  ⟨(sni_wildcard_deviceID ["dns", "example", "com"] "dev").1 (by decide) rfl,
   (sni_wildcard_deviceID ["dns", "example", "com"] "x").2.1,
   (sni_wildcard_deviceID ["dns", "example", "com"] "abc").2.2.1 "def",
   (sni_wildcard_deviceID ["dns", "example", "com"] "dev").2.2.2 "sub" (by decide) rfl⟩

/-- C5: the DoH paths `/dns-query` and `/dns-query/` yield the empty device
id with no error; `/dns-query/cli` and `/dns-query/cli/` yield `cli`; an
extra segment yields the extra-parts error with its exact message; a
malformed id yields the bad-device-id error with its exact message. -/
theorem doh_path_deviceID :
    deviceIDFromDoHPath "/dns-query" = .ok "" ∧
    deviceIDFromDoHPath "/dns-query/" = .ok "" ∧
    deviceIDFromDoHPath "/dns-query/cli" = .ok "cli" ∧
    deviceIDFromDoHPath "/dns-query/cli/" = .ok "cli" ∧
    deviceIDFromDoHPath "/dns-query/cli/foo" =
      .error (.extraParts "/dns-query/cli/foo") ∧
    pathErrMsg (.extraParts "/dns-query/cli/foo") =
      "bad path \"/dns-query/cli/foo\": extra parts" ∧
    deviceIDFromDoHPath "/dns-query/!!!" =
      .error (.badDeviceID "!!!" (.badRune (Char.ofNat 33))) ∧
    pathErrMsg (.badDeviceID "!!!" (.badRune (Char.ofNat 33))) =
      "bad device id \"!!!\": bad domain name label rune " ++ squo ++ "!" ++ squo :=
  ⟨rfl, rfl, rfl, rfl, rfl, rfl, rfl, rfl⟩

/-- The message of `TestDNSMsgToJSONMsg` (serverhttps_test.go): all header
flags set, one A question, five answers (A, AAAA, TXT, CNAME, HTTPS) and
one AAAA extra record of class CHAOS. -/
def jsonCodecTestMsg : MsgFull :=
  ⟨0, false, true, true, true, true,
    [("example.org", 1)],
    [⟨"example.org", 1, 1, 200, .a [127, 0, 0, 1]⟩,
     ⟨"example.org", 28, 1, 200, .aaaa [32, 0, 0, 0, 0, 0, 0, 0, 0, 0, 0, 0, 0, 0, 0, 0]⟩,
     ⟨"example.org", 16, 1, 100, .txt ["value1", "value2"]⟩,
     ⟨"example.org", 5, 1, 100, .cname "example.com"⟩,
     ⟨"example.org", 65, 1, 100, .https 0 "example.com"
       [.alpn ["h2", "h3"],
        .ech [1, 2],
        .ipv4hint [[127, 0, 0, 1], [127, 0, 0, 2]],
        .ipv6hint [[32, 0, 0, 0, 0, 0, 0, 0, 0, 0, 0, 0, 0, 0, 0, 0],
          [32, 1, 0, 0, 0, 0, 0, 0, 0, 0, 0, 0, 0, 0, 0, 0]]]⟩],
    [],
    [⟨"example.org", 28, 3, 200, .aaaa [32, 0, 0, 0, 0, 0, 0, 0, 0, 0, 0, 0, 0, 0, 0, 0]⟩]⟩

/-- C7: on the codec test message, `DNSMsgToJSONMsg` copies the status and
flags and renders each record's RDATA canonically: A/AAAA as the literal
IP, TXT as space-separated quoted strings, CNAME as its target, and
HTTPS/SVCB in presentation form with `alpn`, `ech`, `ipv4hint` and
`ipv6hint` parameters — exactly the values the repository's test expects. -/
theorem dnsmsg_to_json_rendering :
    DNSMsgToJSONMsg jsonCodecTestMsg =
      ⟨0, false, true, true, true, true,
        [⟨"example.org", 1⟩],
        [⟨"example.org", 1, 1, 200, "127.0.0.1"⟩,
         ⟨"example.org", 28, 1, 200, "2000::"⟩,
         ⟨"example.org", 16, 1, 100, "\"value1\" \"value2\""⟩,
         ⟨"example.org", 5, 1, 100, "example.com"⟩,
         ⟨"example.org", 65, 1, 100,
          "0 example.com alpn=\"h2,h3\" ech=\"AQI=\" " ++
            "ipv4hint=\"127.0.0.1,127.0.0.2\" ipv6hint=\"2000::,2001::\""⟩],
        [],
        [⟨"example.org", 28, 3, 200, "2000::"⟩]⟩ := rfl

/-- C8 counterexample: the path `/linkip/dev/abc` begins with `/linkip/`,
yet a PUT request to it is not proxied — the handler answers 404. -/
theorem linkip_prefix_not_always_proxied :
    "/linkip/".data.isPrefixOf "/linkip/dev/abc".data = true ∧
    shouldProxy "PUT" "/linkip/dev/abc" = false ∧
    linkedIPServeHTTP "PUT" "/linkip/dev/abc" = .notFound :=
  ⟨rfl, rfl, rfl⟩

/-- `splitFirst` on a list without the separator returns the whole list and
no remainder. -/
theorem splitFirst_no_sep (sep : Char) (xs : List Char) (h : sep ∉ xs) :
    splitFirst sep xs = (xs, none) := by
  induction xs with
  | nil => rfl
  | cons c rest ih =>
    rw [List.mem_cons, not_or] at h
    have hc : ¬ c = sep := fun hcs => h.1 hcs.symm
    simp [splitFirst, hc, ih h.2]

/-- `splitFirst` splits at the first separator: a separator-free part
followed by the separator yields that part and the remainder. -/
theorem splitFirst_append (sep : Char) (xs ys : List Char) (h : sep ∉ xs) :
    splitFirst sep (xs ++ sep :: ys) = (xs, some ys) := by
  induction xs with
  | nil => simp [splitFirst]
  | cons c rest ih =>
    rw [List.mem_cons, not_or] at h
    have hc : ¬ c = sep := fun hcs => h.1 hcs.symm
    simp [splitFirst, hc, ih h.2]

/-- `goSplitN` on a separator-free list returns that one part. -/
theorem goSplitN_no_sep (sep : Char) (m : Nat) (hm : 1 ≤ m) (xs : List Char)
    (h : sep ∉ xs) : goSplitN sep m xs = [xs] := by
  match m, hm with
  | 1, _ => rfl
  | n + 2, _ => simp [goSplitN, splitFirst_no_sep sep xs h]

/-- `goSplitN` peels off one separator-free leading part per step while the
count allows it. -/
theorem goSplitN_step (sep : Char) (n : Nat) (xs ys : List Char) (h : sep ∉ xs) :
    goSplitN sep (n + 2) (xs ++ sep :: ys) = xs :: goSplitN sep (n + 1) ys := by
  simp [goSplitN, splitFirst_append sep xs ys h]

/-- Splitting three slash-separated separator-free parts with a count of
five yields exactly those parts. -/
theorem parts_three (w a b : List Char) (hw : sepSlash ∉ w)
    (ha : sepSlash ∉ a) (hb : sepSlash ∉ b) :
    goSplitN sepSlash 5 (w ++ sepSlash :: (a ++ sepSlash :: b)) = [w, a, b] := by
  rw [goSplitN_step sepSlash 3 w _ hw]
  rw [goSplitN_step sepSlash 2 a _ ha]
  rw [goSplitN_no_sep sepSlash 3 (by omega) b hb]

/-- Splitting four slash-separated separator-free parts with a count of
five yields exactly those parts. -/
theorem parts_four (w a b cs : List Char) (hw : sepSlash ∉ w)
    (ha : sepSlash ∉ a) (hb : sepSlash ∉ b) (hcs : sepSlash ∉ cs) :
    goSplitN sepSlash 5 (w ++ sepSlash :: (a ++ sepSlash :: (b ++ sepSlash :: cs))) =
      [w, a, b, cs] := by
  rw [goSplitN_step sepSlash 3 w _ hw]
  rw [goSplitN_step sepSlash 2 a _ ha]
  rw [goSplitN_step sepSlash 1 b _ hb]
  rw [goSplitN_no_sep sepSlash 2 (by omega) cs hcs]

/-- When `splitFirst` reports no separator, the part is the whole input and
the input is separator-free. -/
theorem splitFirst_fst_none (sep : Char) (s pre : List Char)
    (h : splitFirst sep s = (pre, none)) : pre = s ∧ sep ∉ s := by
  induction s generalizing pre with
  | nil =>
    rw [splitFirst, Prod.mk.injEq] at h
    exact ⟨h.1.symm, by simp⟩
  | cons c rest ih =>
    by_cases hc : c = sep
    · rw [splitFirst, if_pos hc, Prod.mk.injEq] at h
      exact absurd h.2 (by simp)
    · rw [splitFirst, if_neg hc, Prod.mk.injEq] at h
      have hrest : splitFirst sep rest = ((splitFirst sep rest).1, none) := by
        rw [← h.2]
      obtain ⟨he, hm⟩ := ih (splitFirst sep rest).1 hrest
      refine ⟨?_, ?_⟩
      · rw [← h.1, he]
      · rw [List.mem_cons, not_or]
        exact ⟨fun hs => hc hs.symm, hm⟩

/-- When `splitFirst` reports a remainder, the input is the separator-free
part, the separator, and the remainder. -/
theorem splitFirst_fst_some (sep : Char) (s pre rest : List Char)
    (h : splitFirst sep s = (pre, some rest)) :
    s = pre ++ sep :: rest ∧ sep ∉ pre := by
  induction s generalizing pre rest with
  | nil =>
    rw [splitFirst, Prod.mk.injEq] at h
    exact absurd h.2 (by simp)
  | cons c tl ih =>
    by_cases hc : c = sep
    · rw [splitFirst, if_pos hc, Prod.mk.injEq] at h
      obtain ⟨h1, h2⟩ := h
      injection h2 with h2
      subst h2
      rw [← h1, hc]
      exact ⟨rfl, by simp⟩
    · rw [splitFirst, if_neg hc, Prod.mk.injEq] at h
      have htl : splitFirst sep tl = ((splitFirst sep tl).1, some rest) := by
        rw [← h.2]
      obtain ⟨he, hm⟩ := ih (splitFirst sep tl).1 rest htl
      refine ⟨?_, ?_⟩
      · rw [← h.1, List.cons_append, ← he]
      · rw [← h.1, List.mem_cons, not_or]
        exact ⟨fun hs => hc hs.symm, hm⟩

/-- `goSplitN` with a positive count never returns the empty list. -/
theorem goSplitN_ne_nil (sep : Char) (m : Nat) (hm : 1 ≤ m) (s : List Char) :
    goSplitN sep m s ≠ [] := by
  match m, hm with
  | 1, _ => simp [goSplitN]
  | n + 2, _ =>
    cases hsf : splitFirst sep s with
    | mk pre o => cases o <;> simp [goSplitN, hsf]

/-- Joins parts back with the separator between consecutive parts — the
inverse of splitting. -/
def joinSep (sep : Char) : List (List Char) → List Char
  | [] => []
  | [p] => p
  | p :: q :: ps => p ++ sep :: joinSep sep (q :: ps)

/-- Splitting loses nothing: joining the parts of `goSplitN` restores the
input. -/
theorem joinSep_goSplitN (sep : Char) :
    ∀ (m : Nat), 1 ≤ m → ∀ s : List Char, joinSep sep (goSplitN sep m s) = s
  | 1, _, s => by simp [goSplitN, joinSep]
  | n + 2, _, s => by
    cases hsf : splitFirst sep s with
    | mk pre o =>
      cases o with
      | none =>
        have hn := splitFirst_fst_none sep s pre hsf
        simp [goSplitN, hsf, joinSep, hn.1]
      | some rest =>
        have hs := splitFirst_fst_some sep s pre rest hsf
        have hne := goSplitN_ne_nil sep (n + 1) (by omega) rest
        have hj := joinSep_goSplitN sep (n + 1) (by omega) rest
        cases hg : goSplitN sep (n + 1) rest with
        | nil => exact absurd hg hne
        | cons q ps =>
          rw [hg] at hj
          simp only [goSplitN, hsf, hg, joinSep]
          rw [hj]
          exact hs.1.symm

/-- When `goSplitN` returns fewer parts than its count, no truncation
happened and every part is separator-free. -/
theorem goSplitN_sep_free (sep : Char) :
    ∀ (m : Nat) (s : List Char), (goSplitN sep m s).length < m →
      ∀ p ∈ goSplitN sep m s, sep ∉ p
  | 0, s, h => by simp [goSplitN] at h
  | 1, s, h => by simp [goSplitN] at h
  | n + 2, s, h => by
    cases hsf : splitFirst sep s with
    | mk pre o =>
      cases o with
      | none =>
        have hn := splitFirst_fst_none sep s pre hsf
        intro p hp
        simp only [goSplitN, hsf, List.mem_singleton] at hp
        subst hp
        rw [hn.1]
        exact hn.2
      | some rest =>
        have hs := splitFirst_fst_some sep s pre rest hsf
        intro p hp
        simp only [goSplitN, hsf, List.length_cons] at h
        simp only [goSplitN, hsf, List.mem_cons] at hp
        rcases hp with hp | hp
        · subst hp
          exact hs.2
        · exact goSplitN_sep_free sep (n + 1) rest (by omega) p hp

/-- A list of length four is exactly a four-element list. -/
theorem length_four_decomp {α : Type} (l : List α) (h : l.length = 4) :
    ∃ p0 p1 p2 p3, l = [p0, p1, p2, p3] := by
  rcases l with _ | ⟨p0, l⟩
  · simp at h
  rcases l with _ | ⟨p1, l⟩
  · simp at h
  rcases l with _ | ⟨p2, l⟩
  · simp at h
  rcases l with _ | ⟨p3, l⟩
  · simp at h
  rcases l with _ | ⟨p4, l⟩
  · exact ⟨p0, p1, p2, p3, rfl⟩
  · simp [Nat.add_eq_zero] at h

/-- C8 amended: a request is proxied exactly when its method is GET or POST
and its path, after dropping one leading slash, reads `linkip/{a}/{b}` or
`linkip/{a}/{b}/status` for GET, or `linkip/{a}/{b}` or `ddns/{a}/{b}/{c}`
for POST, with slash-free segments; every request not of these shapes is
not proxied and, unless its path is `/robots.txt`, is answered 404. -/
theorem shouldProxy_shapes (method urlPath : String) :
    (shouldProxy method urlPath = true ↔
      ∃ a b : List Char, sepSlash ∉ a ∧ sepSlash ∉ b ∧
        ((method = "GET" ∧
           (trimLeadSlash urlPath.data =
              "linkip".data ++ sepSlash :: (a ++ sepSlash :: b) ∨
            trimLeadSlash urlPath.data =
              "linkip".data ++ sepSlash ::
                (a ++ sepSlash :: (b ++ sepSlash :: "status".data)))) ∨
         (method = "POST" ∧
           (trimLeadSlash urlPath.data =
              "linkip".data ++ sepSlash :: (a ++ sepSlash :: b) ∨
            ∃ c : List Char, sepSlash ∉ c ∧
              trimLeadSlash urlPath.data =
                "ddns".data ++ sepSlash ::
                  (a ++ sepSlash :: (b ++ sepSlash :: c)))))) ∧
    (shouldProxy method urlPath = false → urlPath ≠ "/robots.txt" →
      linkedIPServeHTTP method urlPath = .notFound) := by
  constructor
  · constructor
    · intro h
      simp only [shouldProxy] at h
      generalize hP : goSplitN sepSlash 5 (trimLeadSlash urlPath.data) = P at h
      by_cases hlen : P.length < 3 ∨ 4 < P.length
      · rw [if_pos hlen] at h
        cases h
      · rw [if_neg hlen] at h
        rw [not_or, Nat.not_lt, Nat.not_lt] at hlen
        have hfree : ∀ p ∈ P, sepSlash ∉ p := by
          rw [← hP]
          exact goSplitN_sep_free sepSlash 5 _ (by rw [hP]; omega)
        have hjoin : joinSep sepSlash P = trimLeadSlash urlPath.data := by
          rw [← hP]
          exact joinSep_goSplitN sepSlash 5 (by omega) _
        by_cases hg : method = "GET"
        · rw [if_pos hg] at h
          simp only [shouldProxyGet, Bool.and_eq_true, Bool.or_eq_true,
            decide_eq_true_eq] at h
          obtain ⟨hhead, hrest⟩ := h
          rcases hrest with h3 | ⟨h4, hst⟩
          · obtain ⟨p0, p1, p2, rfl⟩ := List.length_eq_three.mp h3
            simp only [List.headD_cons] at hhead
            subst hhead
            simp only [joinSep] at hjoin
            refine ⟨p1, p2, hfree p1 (by simp), hfree p2 (by simp),
              Or.inl ⟨hg, Or.inl hjoin.symm⟩⟩
          · obtain ⟨p0, p1, p2, p3, rfl⟩ := length_four_decomp P h4
            simp only [List.headD_cons] at hhead
            simp only [List.getD, List.get?] at hst
            subst hhead
            subst hst
            simp only [joinSep] at hjoin
            refine ⟨p1, p2, hfree p1 (by simp), hfree p2 (by simp),
              Or.inl ⟨hg, Or.inr hjoin.symm⟩⟩
        · rw [if_neg hg] at h
          by_cases hp : method = "POST"
          · rw [if_pos hp] at h
            simp only [shouldProxyPost, Bool.and_eq_true, Bool.or_eq_true,
              decide_eq_true_eq] at h
            rcases h with ⟨hhead, h4⟩ | ⟨hhead, h3⟩
            · obtain ⟨p0, p1, p2, p3, rfl⟩ := length_four_decomp P h4
              simp only [List.headD_cons] at hhead
              subst hhead
              simp only [joinSep] at hjoin
              refine ⟨p1, p2, hfree p1 (by simp), hfree p2 (by simp),
                Or.inr ⟨hp, Or.inr ⟨p3, hfree p3 (by simp), hjoin.symm⟩⟩⟩
            · obtain ⟨p0, p1, p2, rfl⟩ := List.length_eq_three.mp h3
              simp only [List.headD_cons] at hhead
              subst hhead
              simp only [joinSep] at hjoin
              refine ⟨p1, p2, hfree p1 (by simp), hfree p2 (by simp),
                Or.inr ⟨hp, Or.inl hjoin.symm⟩⟩
          · rw [if_neg hp] at h
            cases h
    · rintro ⟨a, b, ha, hb,
        ⟨hm, hshape | hshape⟩ | ⟨hm, hshape | ⟨c, hcfree, hshape⟩⟩⟩
      · subst hm
        simp only [shouldProxy, hshape,
          parts_three "linkip".data a b (by decide) ha hb]
        rfl
      · subst hm
        simp only [shouldProxy, hshape,
          parts_four "linkip".data a b "status".data (by decide) ha hb (by decide)]
        rfl
      · subst hm
        simp only [shouldProxy, hshape,
          parts_three "linkip".data a b (by decide) ha hb]
        rfl
      · subst hm
        simp only [shouldProxy, hshape,
          parts_four "ddns".data a b c (by decide) ha hb hcfree]
        rfl
  · intro hfalse hneq
    simp [linkedIPServeHTTP, hfalse, hneq]

/-- Witness for C8 amended: `GET /linkip/dev/abc` and `POST
/ddns/dev/abc/dom` are proxied via the backward direction, and the
non-matching `PUT /linkip/dev/abc` is answered 404. -/
theorem shouldProxy_shapes_w :
    shouldProxy "GET" "/linkip/dev/abc" = true ∧
    shouldProxy "POST" "/ddns/dev/abc/dom" = true ∧
    linkedIPServeHTTP "PUT" "/linkip/dev/abc" = .notFound :=
  ⟨(shouldProxy_shapes "GET" "/linkip/dev/abc").1.mpr
      ⟨"dev".data, "abc".data, by decide, by decide,
        Or.inl ⟨rfl, Or.inl (by decide)⟩⟩,
   (shouldProxy_shapes "POST" "/ddns/dev/abc/dom").1.mpr
      ⟨"dev".data, "abc".data, by decide, by decide,
        Or.inr ⟨rfl, Or.inr ⟨"dom".data, by decide, by decide⟩⟩⟩,
   (shouldProxy_shapes "PUT" "/linkip/dev/abc").2 (by decide) (by decide)⟩

/-- C9: `strictBool.UnmarshalText` accepts exactly the one-byte strings `0`
(yielding false) and `1` (yielding true); every other input yields an error
and leaves the value unchanged. -/
theorem strictBool_parse (sb : Bool) (b : List Char) :
    (b = ['0'] → strictBoolUnmarshalText sb b = (false, none)) ∧
    (b = ['1'] → strictBoolUnmarshalText sb b = (true, none)) ∧
    (b ≠ ['0'] → b ≠ ['1'] →
      ∃ e, strictBoolUnmarshalText sb b = (sb, some e)) := by
  refine ⟨?_, ?_, ?_⟩
  · rintro rfl
    rfl
  · rintro rfl
    rfl
  · intro h0 h1
    match b with
    | [] => exact ⟨_, rfl⟩
    | [cc] =>
      have hc0 : ¬ cc = '0' := fun h => h0 (by rw [h])
      have hc1 : ¬ cc = '1' := fun h => h1 (by rw [h])
      exact ⟨strictBoolErrMsg [cc], by simp [strictBoolUnmarshalText, hc0, hc1]⟩
    | c1 :: c2 :: rest => exact ⟨_, rfl⟩

/-- Witness for C9: `0` and `1` parse, while `true`, `false`, the empty
string and a longer string are rejected with the value unchanged. -/
theorem strictBool_parse_w :
    strictBoolUnmarshalText true ['0'] = (false, none) ∧
    strictBoolUnmarshalText false ['1'] = (true, none) ∧
    (∃ e, strictBoolUnmarshalText false ("true".data) = (false, some e)) ∧
    (∃ e, strictBoolUnmarshalText true ("false".data) = (true, some e)) ∧
    (∃ e, strictBoolUnmarshalText true [] = (true, some e)) ∧
    (∃ e, strictBoolUnmarshalText false ("10".data) = (false, some e)) :=
  ⟨(strictBool_parse true ['0']).1 rfl,
   (strictBool_parse false ['1']).2.1 rfl,
   (strictBool_parse false ("true".data)).2.2 (by decide) (by decide),
   (strictBool_parse true ("false".data)).2.2 (by decide) (by decide),
   (strictBool_parse true []).2.2 (by decide) (by decide),
   (strictBool_parse false ("10".data)).2.2 (by decide) (by decide)⟩
